import Mathlib

/-!
Verification of the wds development-mode runner core against its
specification. The definitions below are shallow embeddings of the
source modules: the reload controller (Project), the sync-bridge
worker (SyncWorker), the compiled-file cache and swc backend
(SwcCompiler / CompiledFiles), the IPC server routes, and the
Supervisor. External services (filesystem globbing, package-root
discovery, the transpiler, Node child processes) are modelled as
explicit parameters or small state records.
-/

namespace Wds

/-! ## Reload controller (Project, src part_000) -/

/-- The pending reload batch: `interface ReloadBatch` of Project. -/
structure ReloadBatch where
  paths : List String
  invalidate : Bool
deriving Repr, DecidableEq

/-- The portion of Project state the reload controller mutates. -/
structure ProjectState where
  currentBatch : ReloadBatch
deriving Repr, DecidableEq

/-- Freshly constructed Project: `currentBatch = \x7b paths: [], invalidate: false \x7d`. -/
def initialProject : ProjectState := { currentBatch := { paths := [], invalidate := false } }

/-- External calls made by the reload controller, in program order.
`clearBatch` marks the batch snapshot-and-reset statement. -/
inductive Action where
  | clearBatch
  | invalidateBuildSet
  | rebuild
  | restart
deriving Repr, DecidableEq

/-- `Project.enqueueReload(path, requiresInvalidation)`: push the path and
take the disjunction of the invalidate flags. -/
def enqueueReload (st : ProjectState) (path : String) (requiresInvalidation : Bool) : ProjectState :=
  { st with currentBatch :=
    { paths := st.currentBatch.paths ++ [path],
      invalidate := st.currentBatch.invalidate || requiresInvalidation } }

/-- Replace the first occurrence of `pat` in a character list, as the
JavaScript expression `s.replace(pat, repl)` does for string patterns. -/
def replaceFirstAux (pat repl : List Char) : List Char → List Char
  | [] => if pat.isPrefixOf [] then repl else []
  | c :: cs => if pat.isPrefixOf (c :: cs) then repl ++ (c :: cs).drop pat.length
      else c :: replaceFirstAux pat repl cs

/-- JavaScript `s.replace(pat, repl)` with a string pattern: first occurrence only. -/
def jsReplaceFirst (s pat repl : String) : String :=
  ⟨replaceFirstAux pat.data repl.data s.data⟩

/-- `Project.reloadNow()`. Reading `paths[0]` of an empty batch is a runtime
type error in the source (`undefined.replace`), modelled as `none`. On a
non-empty batch: build the summary message, snapshot the invalidate flag,
reset the batch, then invalidate (when flagged), rebuild, restart. The
returned action list records those external calls in program order. -/
def reloadNow (workspaceRoot : String) (st : ProjectState) :
    Option (String × ProjectState × List Action) :=
  match st.currentBatch.paths with
  | [] => none
  | first :: rest =>
    let invalidate := st.currentBatch.invalidate
    let message :=
      (jsReplaceFirst first workspaceRoot "") ++
      (if rest.length > 0 then " and " ++ toString rest.length ++ " others" else "") ++
      " changed, " ++
      (if invalidate then "reinitializing and " else "") ++
      "restarting ..."
    let cleared : ProjectState := { currentBatch := { paths := [], invalidate := false } }
    let actions :=
      [Action.clearBatch] ++
      (if invalidate then [Action.invalidateBuildSet] else []) ++
      [Action.rebuild, Action.restart]
    some (message, cleared, actions)

/-- `Project.invalidateBuildSetAndReload()`: unconditional invalidate,
rebuild, restart; the batch is not touched. -/
def invalidateBuildSetAndReload (st : ProjectState) : ProjectState × List Action :=
  (st, [Action.invalidateBuildSet, Action.rebuild, Action.restart])

/-! Trace semantics for the debounced reload (claim C10). An event is either
an `enqueueReload` call or a trailing-edge firing of the lodash debounce. -/

inductive REvent where
  | enqueue (path : String) (invalidate : Bool)
  | fire
deriving Repr, DecidableEq

/-- Trailing-edge debounce discipline of `debouncedReload`: a firing happens
only when the debounced function was invoked since the previous firing.
`pending` records whether such an invocation happened. -/
def debounceValidAux : List REvent → Bool → Bool
  | [], _ => true
  | REvent.enqueue _ _ :: rest, _ => debounceValidAux rest true
  | REvent.fire :: rest, pending => pending && debounceValidAux rest false

/-- A trace is debounce-valid when every firing is preceded by at least one
enqueue since the last firing (initially nothing is pending). -/
def debounceValid (tr : List REvent) : Bool := debounceValidAux tr false

/-- Run a trace of reload-controller events. A firing runs `reloadNow`;
`none` means `reloadNow` crashed reading `paths[0]` of an empty batch. -/
def runEvents (workspaceRoot : String) (st : ProjectState) : List REvent → Option ProjectState
  | [] => some st
  | REvent.enqueue p inv :: rest => runEvents workspaceRoot (enqueueReload st p inv) rest
  | REvent.fire :: rest =>
    match reloadNow workspaceRoot st with
    | none => none
    | some (_, st', _) => runEvents workspaceRoot st' rest

/-! ## Compiled-file cache and swc backend (src SwcCompiler, part_001)

The external services the backend consumes are modelled as parameters:
`findRoot` is the nearest-package-root lookup, `glob` gives the globby
result for a root (the include and ignore patterns of the project config
of that root, resolved against the filesystem), `transform` is the transpiler. -/

/-- One compiled file: `\x7b filename, root, ...output \x7d` as recorded by
`buildFile`. -/
structure CompiledFile where
  filename : String
  root : String
  code : String
deriving Repr, DecidableEq

/-- A build group: insertion-ordered map `filename → CompiledFile`,
as a JavaScript `Map` preserves insertion order. -/
abbrev FileMap := List CompiledFile

/-- The `CompiledFiles.groups` map: insertion-ordered `root → FileMap`. -/
abbrev Groups := List (String × FileMap)

/-- `group.set(filename, file)`: overwrite in place if the filename is
present, else append. -/
def setFile : FileMap → CompiledFile → FileMap
  | [], f => [f]
  | g :: gs, f => if g.filename = f.filename then f :: gs else g :: setFile gs f

/-- `CompiledFiles.addFile`: add to the group keyed by `file.root`, creating
the group if absent. -/
def CompiledFiles.addFile (groups : Groups) (file : CompiledFile) : Groups :=
  match groups with
  | [] => [(file.root, [file])]
  | (r, files) :: rest =>
    if r = file.root then (r, setFile files file) :: rest
    else (r, files) :: CompiledFiles.addFile rest file

/-- `CompiledFiles.group(filename)`: the first group whose file map contains
the filename, in map iteration (insertion) order. -/
def CompiledFiles.group (groups : Groups) (filename : String) : Option (String × FileMap) :=
  groups.find? (fun e => e.2.any (fun cf => cf.filename = filename))

/-- Environment services consumed by the backend. -/
structure CompilerEnv where
  findRoot : String → String
  glob : String → List String
  transform : String → String

/-- `SwcCompiler.buildFile(filename, root)`: transform the file and record it
under the given root. -/
def buildFile (env : CompilerEnv) (groups : Groups) (filename root : String) : Groups :=
  CompiledFiles.addFile groups
    { filename := filename, root := root, code := env.transform filename }

/-- `SwcCompiler.buildGroup(filename)`: locate the nearest package root, glob
the candidate files of that root, and build each of them under the root. -/
def buildGroup (env : CompilerEnv) (groups : Groups) (filename : String) : Groups :=
  let root := env.findRoot filename
  (env.glob root).foldl (fun gs f => buildFile env gs f root) groups

/-- `SwcCompiler.compile(filename)`: rebuild only the file when it already
belongs to a group, else build its whole group. -/
def SwcCompiler.compile (env : CompilerEnv) (groups : Groups) (filename : String) : Groups :=
  match CompiledFiles.group groups filename with
  | some (root, _) => buildFile env groups filename root
  | none => buildGroup env groups filename

/-- `SwcCompiler.invalidateBuildSet()`: drop every cached group. -/
def SwcCompiler.invalidateBuildSet : Groups := []

/-- Modelled from the spec: `rebuild()` is absent from the src sources (only
its callers are present); the spec says it re-runs compilation for every
group currently in the build-set. Each recorded file is rebuilt under its
group root. -/
def SwcCompiler.rebuild (env : CompilerEnv) (groups : Groups) : Groups :=
  groups.foldl
    (fun acc e => e.2.foldl (fun acc2 cf => buildFile env acc2 cf.filename e.1) acc)
    groups

/-- The operations whose sequences generate the reachable cache states. -/
inductive CompilerOp where
  | compileOp (filename : String)
  | invalidateOp
  | rebuildOp
deriving Repr, DecidableEq

/-- Run a sequence of cache operations from a state. -/
def runOps (env : CompilerEnv) : Groups → List CompilerOp → Groups
  | gs, [] => gs
  | gs, CompilerOp.compileOp f :: rest => runOps env (SwcCompiler.compile env gs f) rest
  | _, CompilerOp.invalidateOp :: rest => runOps env SwcCompiler.invalidateBuildSet rest
  | gs, CompilerOp.rebuildOp :: rest => runOps env (SwcCompiler.rebuild env gs) rest

/-- Number of build groups whose file map contains the filename. -/
def groupsContaining (gs : Groups) (filename : String) : Nat :=
  gs.countP (fun e => e.2.any (fun cf => cf.filename = filename))

/-- Well-formedness invariant of reachable cache states: group roots are
pairwise distinct, and every recorded file is in the glob set of its group
root. -/
def GroupsWF (env : CompilerEnv) (gs : Groups) : Prop :=
  (gs.map Prod.fst).Nodup ∧
    ∀ e ∈ gs, ∀ cf ∈ e.2, cf.filename ∈ env.glob e.1

/-! ## Sync-bridge worker (src/SyncWorker.ts) -/

/-- Wire response of the sync worker: `\x7b id, result \x7d` or `\x7b id, error \x7d`.
A `none` error models a falsy `error` field. -/
structure SyncWorkerResponse where
  id : Nat
  result : Option String
  error : Option String
deriving Repr, DecidableEq

/-- Outcome of `SyncWorker.call` on the main thread: the returned result, or
the particular exception thrown. -/
inductive CallOutcome where
  | ok (result : Option String)
  | internalTimeout
  | badWaitStatus (status : String)
  | noMessage
  | wrongId (sent received : Nat)
  | remoteError (e : String)
deriving Repr, DecidableEq

/-- `SyncWorker.call` after `Atomics.wait` returned `status` and
`receiveMessageOnPort` returned `msg`, for the call that was sent with
identifier `id`. Mirrors the guard sequence of the source. -/
def SyncWorker.callOutcome (id : Nat) (status : String) (msg : Option SyncWorkerResponse) :
    CallOutcome :=
  if status = "timed-out" then CallOutcome.internalTimeout
  else if status ≠ "ok" ∧ status ≠ "not-equal" then CallOutcome.badWaitStatus status
  else match msg with
    | none => CallOutcome.noMessage
    | some m =>
      if m.id ≠ id then CallOutcome.wrongId id m.id
      else match m.error with
        | some e => CallOutcome.remoteError e
        | none => CallOutcome.ok m.result

/-- The shared slot of a fresh call: `new SharedArrayBuffer(8)` is
zero-initialized, so the `Int32Array` view reads 0 at index 0. -/
def freshSharedSlot : Nat := 0

/-- Call message posted to the worker: `\x7b id, args, sharedBuffer \x7d`; the
`slot` field holds the current value of the shared 32-bit slot. -/
structure SyncWorkerCall where
  id : Nat
  args : List String
  slot : Nat
deriving Repr, DecidableEq

/-- Observable actions of the worker thread while handling one call. -/
inductive WorkerAction where
  | postResponse (r : SyncWorkerResponse)
  | addToSlot (amount : Nat)
  | notifyWaiters
deriving Repr, DecidableEq

/-- `handleCall` in the worker thread: run the implementation, post the
response on the port, then `Atomics.add(slot, 1)`, then `Atomics.notify`.
Returns the action list in program order and the final slot value. -/
def handleCall (impl : List String → Except String String) (call : SyncWorkerCall) :
    List WorkerAction × Nat :=
  let response : SyncWorkerResponse :=
    match impl call.args with
    | Except.ok r => { id := call.id, result := some r, error := none }
    | Except.error e => { id := call.id, result := none, error := some e }
  ([WorkerAction.postResponse response, WorkerAction.addToSlot 1, WorkerAction.notifyWaiters],
    call.slot + 1)

/-- `Atomics.wait(view, 0, expected, timeout)` as seen by the main thread:
returns not-equal immediately when the current value differs from the
expected one; otherwise ok when a notify arrives in time, timed-out when not. -/
def atomicsWait (value expected : Nat) (notifiedInTime : Bool) : String :=
  if value ≠ expected then "not-equal"
  else if notifiedInTime then "ok" else "timed-out"

/-! ## IPC server (startIPCServer, src part_000) -/

/-- Failures the compile coordinator can raise. -/
inductive CompileFailure where
  | compileError (message : String)
  | missingDestination (message : String)
deriving Repr, DecidableEq

/-- The message carried by a compile failure. -/
def CompileFailure.message : CompileFailure → String
  | CompileFailure.compileError m => m
  | CompileFailure.missingDestination m => m

/-- Behaviour of `project.compiler` for one `/compile` request: what
`compile(filename)` and `fileGroup(filename)` do. -/
structure IPCCompiler where
  compileResult : Except CompileFailure Unit
  fileGroupResult : Except CompileFailure (List (String × String))

/-- JSON reply bodies of the IPC server. `filenamesReply none` is
`\x7b filenames: undefined \x7d`. The `errorBody` constructor never occurs in the
embedded routes; it is modelled from the spec sentence claiming the server
replies with a JSON error body carrying kind and message, so that the claim
can be compared against the code. -/
inductive IPCReply where
  | filenamesReply (results : Option (List (String × String)))
  | statusOk
  | errorBody (kind message : String)
deriving Repr, DecidableEq

/-- The `compile` helper closure of `startIPCServer`: try `compiler.compile`,
register the file with the watcher, return `compiler.fileGroup`; on any
thrown error, log it and fall through returning `undefined`. Result:
(returned file group, watcher path set afterwards, logged errors). -/
def ipcCompile (c : IPCCompiler) (watcher : Option (List String)) (filename : String) :
    Option (List (String × String)) × Option (List String) × List String :=
  match c.compileResult with
  | Except.error e => (none, watcher, [CompileFailure.message e])
  | Except.ok _ =>
    let watcher2 := watcher.map (fun w => w ++ [filename])
    match c.fileGroupResult with
    | Except.error e => (none, watcher2, [CompileFailure.message e])
    | Except.ok results => (some results, watcher2, [])

/-- The POST /compile route: `reply.json(\x7b filenames: results \x7d)` with
whatever the compile helper returned. -/
def compileRoute (c : IPCCompiler) (watcher : Option (List String)) (filename : String) :
    IPCReply × Option (List String) × List String :=
  let r := ipcCompile c watcher filename
  (IPCReply.filenamesReply r.1, r.2.1, r.2.2)

/-- The POST /file-required route: `project.watcher?.add(filename)` for every
path of the body, then `reply.json(\x7b status: "ok" \x7d)`. -/
def fileRequiredRoute (watcher : Option (List String)) (body : List String) :
    Option (List String) × IPCReply :=
  (body.foldl (fun w filename => w.map (fun ws => ws ++ [filename])) watcher,
    IPCReply.statusOk)

/-! ## Supervisor (src/Supervisor.ts) -/

/-- A Node child process as the Supervisor observes it. Per the Node
documentation, `killed` is set to true after `kill()` successfully sends a
signal; it does not indicate that the child process has terminated. -/
structure ChildProcess where
  killed : Bool
  exited : Bool
  signals : List String
deriving Repr, DecidableEq

/-- `subprocess.kill(signal)`: deliver the signal and set `killed`. -/
def ChildProcess.kill (c : ChildProcess) (signal : String) : ChildProcess :=
  { c with killed := true, signals := c.signals ++ [signal] }

/-- The child exits on its own; `killed` is untouched. -/
def ChildProcess.exit (c : ChildProcess) : ChildProcess :=
  { c with exited := true }

/-- First half of `Supervisor.stop()`: `if (this.process) kill("SIGTERM")`. -/
def Supervisor.stopNow (child : Option ChildProcess) : Option ChildProcess :=
  match child with
  | some c => some (ChildProcess.kill c "SIGTERM")
  | none => none

/-- The 5000 ms timer callback of `Supervisor.stop()`:
`if (!process.killed) process.kill("SIGKILL")`. -/
def Supervisor.stopTimer (c : ChildProcess) : ChildProcess :=
  if !c.killed then ChildProcess.kill c "SIGKILL" else c

/-! ## Concrete environments used by counterexamples and witnesses -/

/-- A workspace with a nested package root: `/a/b` lies inside `/a`. The
project config of `/a` resolves only `.ts` files, so `/a/b/g.tsx` is not in
the glob of `/a`, while `/a/b/f.ts` is globbed by both roots. -/
def nestedRootsEnv : CompilerEnv :=
  { findRoot := fun f => if f = "/a/x.ts" then "/a" else "/a/b",
    glob := fun r =>
      if r = "/a" then ["/a/x.ts", "/a/b/f.ts"]
      else if r = "/a/b" then ["/a/b/f.ts", "/a/b/g.tsx"] else [],
    transform := fun _ => "out" }

/-- A single-root workspace: only `/a` globs anything. -/
def disjointEnv : CompilerEnv :=
  { findRoot := fun _ => "/a",
    glob := fun r => if r = "/a" then ["/a/x.ts"] else [],
    transform := fun _ => "out" }

/-- A root whose glob finds two source files. -/
def twoFileEnv : CompilerEnv :=
  { findRoot := fun _ => "/a",
    glob := fun r => if r = "/a" then ["/a/x.ts", "/a/y.ts"] else [],
    transform := fun _ => "out" }

/-- A compiler whose compile step throws. -/
def failingCompiler : IPCCompiler :=
  { compileResult := Except.error (CompileFailure.compileError "error TS: x.ts (3,7)"),
    fileGroupResult := Except.error (CompileFailure.compileError "error TS: x.ts (3,7)") }

/-- Membership of a filename in the build group recorded under a root. -/
def fileInRootGroup (gs : Groups) (root g : String) : Prop :=
  ∃ e ∈ gs, e.1 = root ∧ ∃ cf ∈ e.2, cf.filename = g

/-- Decidability of recorded-group membership, for concrete evaluation. -/
instance fileInRootGroup.instDecidable (gs : Groups) (root g : String) :
    Decidable (fileInRootGroup gs root g) :=
  decidable_of_iff (∃ e ∈ gs, e.1 = root ∧ ∃ cf ∈ e.2, cf.filename = g) Iff.rfl

/-- The shape of the build set: roots with the filenames they hold. -/
def groupShape (gs : Groups) : List (String × List String) :=
  gs.map (fun e => (e.1, e.2.map CompiledFile.filename))

/-! ## Ignore diagnostics (SwcCompiler.isFilenameIgnored, src part_001) -/

/-- Default resolve extensions of the backend. -/
def DefaultExtensions : List String := [".tsx", ".ts", ".jsx", ".mjs", ".cjs", ".js"]

/-- The per-root project config fields the ignore diagnostics read. -/
structure SwcProjectConfig where
  ignore : List String
  resolveExtensions : Option (List String)

/-- `fileGlobPatterns(config)`: one brace glob over the configured or
default extensions. -/
def fileGlobPatterns (config : SwcProjectConfig) : List String :=
  let extensions := config.resolveExtensions.getD DefaultExtensions
  ["**/*" ++ "\x7b" ++ String.intercalate "," extensions ++ "\x7d"]

/-- `ignoreFileGlobPatterns(config)`: negated node_modules, d.ts and the
configured ignore patterns. -/
def ignoreFileGlobPatterns (config : SwcProjectConfig) : List String :=
  ["!node_modules", "!**/*.d.ts"] ++ config.ignore.map (fun ig => "!" ++ ig)

/-- `SwcCompiler.isFilenameIgnored(filename)`, with the globby service an
explicit parameter: glob with and without the ignore rules; when the file
appears only without them, return the first single ignore rule whose
addition filters the file out. `none` models the `false` return. -/
def isFilenameIgnored (globby : List String → List String) (config : SwcProjectConfig)
    (filename : String) : Option String :=
  let includeGlobs := fileGlobPatterns config
  let ignoreGlobs := ignoreFileGlobPatterns config
  let actual := globby (includeGlobs ++ ignoreGlobs)
  let all := globby includeGlobs
  if filename ∉ actual ∧ filename ∈ all then
    ignoreGlobs.find? (fun ig => filename ∉ globby (includeGlobs ++ [ig]))
  else none

/-- A project config ignoring generated files. -/
def configW : SwcProjectConfig :=
  { ignore := ["**/gen*"], resolveExtensions := none }

/-- A globby service for `configW`: the generated file matches the includes
and is filtered out exactly when the `!**/gen*` rule is among the
patterns. -/
def globbyW (patterns : List String) : List String :=
  if "!**/gen*" ∈ patterns then ["/r/a.ts"] else ["/r/a.ts", "/r/gen.ts"]

end Wds

namespace Wds

/-- C1: every successful flush of the reload controller resets the batch to
empty before any compile work, calls invalidateBuildSet exactly when the
snapshotted invalidate flag was true, runs rebuild after any invalidation,
and restarts only after rebuild: the action trace is strictly sequenced
clearBatch, then optionally invalidateBuildSet, then rebuild, then restart. -/
theorem reloadNow_ordering (workspaceRoot : String) (st : ProjectState) (msg : String)
    (st' : ProjectState) (acts : List Action)
    (h : reloadNow workspaceRoot st = some (msg, st', acts)) :
    st'.currentBatch.paths = [] ∧ st'.currentBatch.invalidate = false ∧
    acts.indexOf Action.clearBatch = 0 ∧
    (Action.invalidateBuildSet ∈ acts ↔ st.currentBatch.invalidate = true) ∧
    acts.indexOf Action.clearBatch < acts.indexOf Action.rebuild ∧
    (st.currentBatch.invalidate = true →
      acts.indexOf Action.invalidateBuildSet < acts.indexOf Action.rebuild) ∧
    acts.indexOf Action.rebuild < acts.indexOf Action.restart := by
  cases hp : st.currentBatch.paths with
  | nil => simp [reloadNow, hp] at h
  | cons first rest =>
    simp only [reloadNow, hp, Option.some.injEq, Prod.mk.injEq] at h
    obtain ⟨hmsg, hst, hacts⟩ := h
    subst hst
    subst hacts
    cases hi : st.currentBatch.invalidate <;> simp [hi]

/-- Witness for C1 at a concrete state with a non-empty batch. -/
theorem reloadNow_ordering_witness :
    reloadNow "/w" { currentBatch := { paths := ["/w/a.ts"], invalidate := true } } =
      some ("/a.ts changed, reinitializing and restarting ...",
        { currentBatch := { paths := [], invalidate := false } },
        [Action.clearBatch, Action.invalidateBuildSet, Action.rebuild, Action.restart]) ∧
    ([Action.clearBatch, Action.invalidateBuildSet, Action.rebuild,
        Action.restart].indexOf Action.rebuild <
      [Action.clearBatch, Action.invalidateBuildSet, Action.rebuild,
        Action.restart].indexOf Action.restart) := by
  have h : reloadNow "/w" { currentBatch := { paths := ["/w/a.ts"], invalidate := true } } =
      some ("/a.ts changed, reinitializing and restarting ...",
        { currentBatch := { paths := [], invalidate := false } },
        [Action.clearBatch, Action.invalidateBuildSet, Action.rebuild, Action.restart]) := by
    decide
  exact ⟨h, (reloadNow_ordering "/w" _ _ _ _ h).2.2.2.2.2.2⟩

/-- Helper for C10: running a debounce-valid suffix from a state whose batch
is non-empty whenever an enqueue is pending never crashes. -/
theorem runEvents_isSome_aux (workspaceRoot : String) :
    ∀ (tr : List REvent) (st : ProjectState) (pending : Bool),
      debounceValidAux tr pending = true →
      (pending = true → st.currentBatch.paths ≠ []) →
      (runEvents workspaceRoot st tr).isSome = true := by
  intro tr
  induction tr with
  | nil => intro st pending _ _; simp [runEvents]
  | cons e rest ih =>
    intro st pending hvalid hinv
    cases e with
    | enqueue p inv =>
      simp only [debounceValidAux] at hvalid
      simp only [runEvents]
      refine ih (enqueueReload st p inv) true hvalid ?_
      intro _
      simp [enqueueReload]
    | fire =>
      simp only [debounceValidAux, Bool.and_eq_true] at hvalid
      have hne := hinv hvalid.1
      simp only [runEvents]
      cases hp : st.currentBatch.paths with
      | nil => exact absurd hp hne
      | cons first restPaths =>
        simp only [reloadNow, hp]
        exact ih _ false hvalid.2 (by intro hcontra; exact absurd hcontra (by simp))

end Wds

namespace Wds

/-- C10: whenever the debounced reload fires in a debounce-valid trace, the
current batch is non-empty, so the whole trace runs without `reloadNow`
ever reading `paths[0]` of an empty batch: execution from the initial
project never crashes. -/
theorem debounced_reload_never_reads_empty_batch (workspaceRoot : String) (tr : List REvent)
    (h : debounceValid tr = true) :
    (runEvents workspaceRoot initialProject tr).isSome = true := by
  refine runEvents_isSome_aux workspaceRoot tr initialProject false h ?_
  intro hcontra
  exact absurd hcontra (by simp)


end Wds

namespace Wds

/-- C2: SyncWorker.call either returns the result of exactly one response
whose id matches the sent id (or throws the error of that response), or fails
fatally: timed-out throws an internal error, any status other than ok or
not-equal throws, a missing message throws, and a mismatched id throws. -/
theorem syncWorker_call_correct (id : Nat) (status : String) (msg : Option SyncWorkerResponse) :
    (status = "timed-out" → SyncWorker.callOutcome id status msg = CallOutcome.internalTimeout) ∧
    (status ≠ "timed-out" → status ≠ "ok" → status ≠ "not-equal" →
      SyncWorker.callOutcome id status msg = CallOutcome.badWaitStatus status) ∧
    ((status = "ok" ∨ status = "not-equal") → msg = none →
      SyncWorker.callOutcome id status msg = CallOutcome.noMessage) ∧
    (∀ m, (status = "ok" ∨ status = "not-equal") → msg = some m → m.id ≠ id →
      SyncWorker.callOutcome id status msg = CallOutcome.wrongId id m.id) ∧
    (∀ m, (status = "ok" ∨ status = "not-equal") → msg = some m → m.id = id →
      SyncWorker.callOutcome id status msg =
        (match m.error with
          | some e => CallOutcome.remoteError e
          | none => CallOutcome.ok m.result)) ∧
    (∀ r, SyncWorker.callOutcome id status msg = CallOutcome.ok r →
      ∃ m, msg = some m ∧ m.id = id ∧ m.error = none ∧ m.result = r ∧
        (status = "ok" ∨ status = "not-equal")) := by
  have hok : status = "ok" ∨ status = "not-equal" → status ≠ "timed-out" := by
    rintro (rfl | rfl) <;> decide
  refine ⟨?_, ?_, ?_, ?_, ?_, ?_⟩
  · intro h; simp [SyncWorker.callOutcome, h]
  · intro h1 h2 h3
    simp [SyncWorker.callOutcome, h1, h2, h3]
  · rintro h rfl
    rcases h with rfl | rfl <;> simp [SyncWorker.callOutcome]
  · rintro m h rfl hne
    rcases h with rfl | rfl <;> simp [SyncWorker.callOutcome, hne]
  · rintro m h rfl hid
    rcases h with rfl | rfl <;> simp [SyncWorker.callOutcome, hid]
  · intro r h
    rcases msg with _ | m
    · simp only [SyncWorker.callOutcome] at h
      split_ifs at h
    · simp only [SyncWorker.callOutcome] at h
      by_cases h1 : status = "timed-out"
      · rw [if_pos h1] at h; exact absurd h (by simp)
      rw [if_neg h1] at h
      by_cases h2 : status ≠ "ok" ∧ status ≠ "not-equal"
      · rw [if_pos h2] at h; exact absurd h (by simp)
      rw [if_neg h2] at h
      by_cases hid : m.id ≠ id
      · rw [if_pos hid] at h; exact absurd h (by simp)
      rw [if_neg hid] at h
      rcases herr : m.error with _ | e <;> rw [herr] at h
      · exact ⟨m, rfl, not_not.mp hid, herr, by injection h, by tauto⟩
      · exact absurd h (by simp)

/-- Witness for C2: a successful call, a timeout, and a mismatched id at
concrete inputs. -/
theorem syncWorker_call_correct_witness :
    SyncWorker.callOutcome 3 "ok" (some { id := 3, result := some "code", error := none }) =
      CallOutcome.ok (some "code") ∧
    SyncWorker.callOutcome 4 "timed-out" none = CallOutcome.internalTimeout ∧
    SyncWorker.callOutcome 5 "not-equal" (some { id := 9, result := none, error := none }) =
      CallOutcome.wrongId 5 9 := by
  refine ⟨?_, ?_, ?_⟩
  · exact (syncWorker_call_correct 3 "ok"
      (some { id := 3, result := some "code", error := none })).2.2.2.2.1
      _ (Or.inl rfl) rfl rfl
  · exact (syncWorker_call_correct 4 "timed-out" none).1 rfl
  · exact (syncWorker_call_correct 5 "not-equal"
      (some { id := 9, result := none, error := none })).2.2.2.1 _ (Or.inr rfl) rfl (by decide)

/-- C3: for every handled call the worker posts the response carrying the
call id, increments the shared slot, and only then notifies, in that
program order; a call starts from a fresh zero slot, so a wait that begins
after the worker finished sees value 1 and returns not-equal whether or not
the notification was observed. -/
theorem handleCall_store_then_notify (impl : List String → Except String String)
    (call : SyncWorkerCall) (notifiedInTime : Bool) (h : call.slot = freshSharedSlot) :
    (∃ r, (handleCall impl call).1 =
        [WorkerAction.postResponse r, WorkerAction.addToSlot 1, WorkerAction.notifyWaiters] ∧
      r.id = call.id) ∧
    (handleCall impl call).2 = call.slot + 1 ∧
    atomicsWait (handleCall impl call).2 0 notifiedInTime = "not-equal" := by
  refine ⟨?_, rfl, ?_⟩
  · cases himpl : impl call.args with
    | ok r =>
      exact ⟨{ id := call.id, result := some r, error := none },
        by simp [handleCall, himpl], rfl⟩
    | error e =>
      exact ⟨{ id := call.id, result := none, error := some e },
        by simp [handleCall, himpl], rfl⟩
  · have : (handleCall impl call).2 = call.slot + 1 := rfl
    rw [this, h]
    simp [freshSharedSlot, atomicsWait]

/-- Witness for C3 at a concrete call with a fresh shared slot. -/
theorem handleCall_store_then_notify_witness :
    (handleCall (fun _ => Except.ok "out") { id := 7, args := ["/w/a.ts"], slot := 0 }).2 = 1 ∧
    atomicsWait
      (handleCall (fun _ => Except.ok "out") { id := 7, args := ["/w/a.ts"], slot := 0 }).2
      0 false = "not-equal" := by
  have h := handleCall_store_then_notify (fun _ => Except.ok "out")
    { id := 7, args := ["/w/a.ts"], slot := 0 } false rfl
  exact ⟨h.2.1, h.2.2⟩

/-- Witness for C10 on a concrete valid trace with two firings. -/
theorem debounced_reload_never_reads_empty_batch_witness :
    debounceValid
        [REvent.enqueue "/w/a.ts" false, REvent.fire,
         REvent.enqueue "/w/b.ts" true, REvent.enqueue "/w/c.ts" false, REvent.fire] = true ∧
      (runEvents "/w" initialProject
        [REvent.enqueue "/w/a.ts" false, REvent.fire,
         REvent.enqueue "/w/b.ts" true, REvent.enqueue "/w/c.ts" false, REvent.fire]).isSome
        = true := by
  constructor
  · decide
  · exact debounced_reload_never_reads_empty_batch "/w" _ (by decide)

end Wds

namespace Wds

/-! ### Build-set invariant lemmas -/

/-- Every member of `setFile files f` is `f` or an original member. -/
theorem setFile_mem {files : FileMap} {f cf : CompiledFile} (h : cf ∈ setFile files f) :
    cf = f ∨ cf ∈ files := by
  induction files with
  | nil => simpa [setFile] using h
  | cons g gs ih =>
    by_cases hg : g.filename = f.filename
    · rw [setFile, if_pos hg] at h
      rcases List.mem_cons.mp h with rfl | h2
      · exact Or.inl rfl
      · exact Or.inr (List.mem_cons_of_mem _ h2)
    · rw [setFile, if_neg hg] at h
      rcases List.mem_cons.mp h with rfl | h2
      · exact Or.inr (List.mem_cons_self _ _)
      · rcases ih h2 with h3 | h3
        · exact Or.inl h3
        · exact Or.inr (List.mem_cons_of_mem _ h3)

/-- A pointwise property of recorded files survives `addFile` when the new
file satisfies it at its own root. -/
theorem addFile_pred {P : String → CompiledFile → Prop} :
    ∀ {gs : Groups} {file : CompiledFile},
      (∀ e ∈ gs, ∀ cf ∈ e.2, P e.1 cf) → P file.root file →
      ∀ e ∈ CompiledFiles.addFile gs file, ∀ cf ∈ e.2, P e.1 cf := by
  intro gs
  induction gs with
  | nil =>
    intro file _ hf e he cf hcf
    simp only [CompiledFiles.addFile, List.mem_singleton] at he
    subst he
    simp only [List.mem_singleton] at hcf
    subst hcf
    exact hf
  | cons hd rest ih =>
    intro file hgs hf e he cf hcf
    obtain ⟨r, files⟩ := hd
    simp only [CompiledFiles.addFile] at he
    by_cases hr : r = file.root
    · rw [if_pos hr] at he
      rcases List.mem_cons.mp he with rfl | h2
      · rcases setFile_mem hcf with rfl | h3
        · simpa [hr] using hf
        · exact hgs (r, files) (List.mem_cons_self _ _) cf h3
      · exact hgs e (List.mem_cons_of_mem _ h2) cf hcf
    · rw [if_neg hr] at he
      rcases List.mem_cons.mp he with rfl | h2
      · exact hgs (r, files) (List.mem_cons_self _ _) cf hcf
      · exact ih (fun e2 he2 => hgs e2 (List.mem_cons_of_mem _ he2)) hf e h2 cf hcf

/-- The keys after `addFile`: unchanged when the root is present, else the
new root is appended. -/
theorem addFile_keys (gs : Groups) (file : CompiledFile) :
    (CompiledFiles.addFile gs file).map Prod.fst =
      if file.root ∈ gs.map Prod.fst then gs.map Prod.fst
      else gs.map Prod.fst ++ [file.root] := by
  induction gs with
  | nil => simp [CompiledFiles.addFile]
  | cons hd rest ih =>
    obtain ⟨r, files⟩ := hd
    simp only [CompiledFiles.addFile]
    by_cases hr : r = file.root
    · rw [if_pos hr]
      simp [hr]
    · rw [if_neg hr]
      simp only [List.map_cons]
      rw [ih]
      by_cases hm : file.root ∈ rest.map Prod.fst
      · rw [if_pos hm, if_pos (List.mem_cons_of_mem r hm)]
      · have hne : file.root ∉ (r :: rest.map Prod.fst) := by
          intro hmem
          rcases List.mem_cons.mp hmem with h | h
          · exact hr h.symm
          · exact hm h
        rw [if_neg hm, if_neg hne]
        simp

/-- The empty build set is well formed. -/
theorem groupsWF_nil (env : CompilerEnv) : GroupsWF env [] :=
  ⟨List.nodup_nil, by simp⟩

/-- `addFile` preserves well-formedness when the added file is in the glob
set of its root. -/
theorem addFile_wf {env : CompilerEnv} {gs : Groups} {file : CompiledFile}
    (h : GroupsWF env gs) (hf : file.filename ∈ env.glob file.root) :
    GroupsWF env (CompiledFiles.addFile gs file) := by
  refine ⟨?_, addFile_pred (P := fun r cf => cf.filename ∈ env.glob r) h.2 hf⟩
  rw [addFile_keys]
  split_ifs with hm
  · exact h.1
  · simp [List.nodup_append, h.1, hm]

/-- `buildFile` preserves well-formedness. -/
theorem buildFile_wf {env : CompilerEnv} {gs : Groups} {filename root : String}
    (h : GroupsWF env gs) (hf : filename ∈ env.glob root) :
    GroupsWF env (buildFile env gs filename root) :=
  addFile_wf h hf

/-- Folding `buildFile` over glob members preserves well-formedness. -/
theorem foldl_buildFile_wf (env : CompilerEnv) (root : String) :
    ∀ (l : List String) (gs : Groups), GroupsWF env gs →
      (∀ f ∈ l, f ∈ env.glob root) →
      GroupsWF env (l.foldl (fun a f => buildFile env a f root) gs) := by
  intro l
  induction l with
  | nil => intro gs h _; simpa using h
  | cons f fs ih =>
    intro gs h hl
    simp only [List.foldl_cons]
    exact ih _ (buildFile_wf h (hl f (List.mem_cons_self _ _)))
      (fun g hg => hl g (List.mem_cons_of_mem _ hg))

/-- A successful group lookup returns a recorded entry containing the file. -/
theorem group_some {gs : Groups} {filename root : String} {files : FileMap}
    (h : CompiledFiles.group gs filename = some (root, files)) :
    (root, files) ∈ gs ∧ ∃ cf ∈ files, cf.filename = filename := by
  have hmem := List.mem_of_find?_eq_some h
  have hpred := List.find?_some h
  simp only [List.any_eq_true, decide_eq_true_eq] at hpred
  exact ⟨hmem, hpred⟩

/-- `compile` preserves well-formedness. -/
theorem compile_wf {env : CompilerEnv} {gs : Groups} (f : String) (h : GroupsWF env gs) :
    GroupsWF env (SwcCompiler.compile env gs f) := by
  unfold SwcCompiler.compile
  cases hg : CompiledFiles.group gs f with
  | none =>
    unfold buildGroup
    exact foldl_buildFile_wf env _ _ gs h (fun g hgl => hgl)
  | some p =>
    obtain ⟨root, files⟩ := p
    obtain ⟨hmem, cf, hcf, hname⟩ := group_some hg
    exact buildFile_wf h (hname ▸ h.2 (root, files) hmem cf hcf)

/-- Folding `buildFile` over the recorded files of one root preserves
well-formedness when those files are in the glob set of that root. -/
theorem foldl_files_wf (env : CompilerEnv) (root : String) :
    ∀ (files : FileMap) (acc : Groups), GroupsWF env acc →
      (∀ cf ∈ files, cf.filename ∈ env.glob root) →
      GroupsWF env (files.foldl (fun a cf => buildFile env a cf.filename root) acc) := by
  intro files
  induction files with
  | nil => intro acc h _; simpa using h
  | cons cf cfs ih =>
    intro acc h hl
    simp only [List.foldl_cons]
    exact ih _ (buildFile_wf h (hl cf (List.mem_cons_self _ _)))
      (fun c hc => hl c (List.mem_cons_of_mem _ hc))

/-- The outer rebuild fold preserves well-formedness. -/
theorem foldl_entries_wf (env : CompilerEnv) :
    ∀ (entries : List (String × FileMap)) (acc : Groups), GroupsWF env acc →
      (∀ e ∈ entries, ∀ cf ∈ e.2, cf.filename ∈ env.glob e.1) →
      GroupsWF env (entries.foldl
        (fun a e => e.2.foldl (fun a2 cf => buildFile env a2 cf.filename e.1) a) acc) := by
  intro entries
  induction entries with
  | nil => intro acc h _; simpa using h
  | cons e es ih =>
    intro acc h hl
    simp only [List.foldl_cons]
    exact ih _ (foldl_files_wf env e.1 e.2 acc h (hl e (List.mem_cons_self _ _)))
      (fun e2 he2 => hl e2 (List.mem_cons_of_mem _ he2))

/-- `rebuild` preserves well-formedness. -/
theorem rebuild_wf {env : CompilerEnv} {gs : Groups} (h : GroupsWF env gs) :
    GroupsWF env (SwcCompiler.rebuild env gs) :=
  foldl_entries_wf env gs gs h h.2

/-- Every state reached from the empty cache is well formed. -/
theorem runOps_wf (env : CompilerEnv) :
    ∀ (ops : List CompilerOp) (gs : Groups), GroupsWF env gs →
      GroupsWF env (runOps env gs ops) := by
  intro ops
  induction ops with
  | nil => intro gs h; simpa [runOps] using h
  | cons op rest ih =>
    intro gs h
    cases op with
    | compileOp f => exact ih _ (compile_wf f h)
    | invalidateOp => exact ih _ (groupsWF_nil env)
    | rebuildOp => exact ih _ (rebuild_wf h)

/-- A list pairwise free of two predicate-satisfying members counts at most
one. -/
theorem countP_le_one_of_pairwise {α : Type} {l : List α} {p : α → Bool}
    (h : l.Pairwise (fun a b => ¬(p a = true ∧ p b = true))) : l.countP p ≤ 1 := by
  induction l with
  | nil => simp
  | cons a l ih =>
    rcases List.pairwise_cons.mp h with ⟨ha, hl⟩
    rw [List.countP_cons]
    by_cases hpa : p a = true
    · have h0 : l.countP p = 0 := by
        rw [List.countP_eq_zero]
        intro b hb hpb
        exact ha b hb ⟨hpa, hpb⟩
      simp [h0, hpa]
    · simpa [hpa] using ih hl

/-- In a well-formed state over pairwise-disjoint glob sets, a filename lies
in at most one group. -/
theorem wf_groupsContaining_le_one {env : CompilerEnv} {gs : Groups}
    (hwf : GroupsWF env gs)
    (hdisj : ∀ r1 r2 g, r1 ≠ r2 → g ∈ env.glob r1 → g ∈ env.glob r2 → False)
    (f : String) : groupsContaining gs f ≤ 1 := by
  apply countP_le_one_of_pairwise
  have hp : gs.Pairwise (fun e1 e2 => e1.1 ≠ e2.1) := List.pairwise_map.mp hwf.1
  refine hp.imp_of_mem ?_
  intro e1 e2 h1 h2 hne
  rintro ⟨hp1, hp2⟩
  simp only [List.any_eq_true, decide_eq_true_eq] at hp1 hp2
  obtain ⟨cf1, hcf1, hn1⟩ := hp1
  obtain ⟨cf2, hcf2, hn2⟩ := hp2
  exact hdisj e1.1 e2.1 f hne (hn1 ▸ hwf.2 e1 h1 cf1 hcf1) (hn2 ▸ hwf.2 e2 h2 cf2 hcf2)

end Wds

namespace Wds

/-- C4 (amended): for every reachable state of the compiled-file cache, a
SourcePath appears in at most one BuildGroup provided distinct roots never
glob a common file; with overlapping roots (nested package roots) a path
can be recorded in two groups, as the counterexample shows. -/
theorem buildSet_group_unique_of_disjoint_globs (env : CompilerEnv)
    (hdisj : ∀ r1 r2 g, r1 ≠ r2 → g ∈ env.glob r1 → g ∈ env.glob r2 → False)
    (ops : List CompilerOp) (f : String) :
    groupsContaining (runOps env [] ops) f ≤ 1 :=
  wf_groupsContaining_le_one (runOps_wf env ops [] (groupsWF_nil env)) hdisj f

/-- Witness for C4 (amended) on a single-root environment. -/
theorem buildSet_group_unique_witness :
    groupsContaining
      (runOps disjointEnv [] [CompilerOp.compileOp "/a/x.ts", CompilerOp.rebuildOp])
      "/a/x.ts" ≤ 1 := by
  apply buildSet_group_unique_of_disjoint_globs
  intro r1 r2 g hne h1 h2
  by_cases e1 : r1 = "/a"
  · by_cases e2 : r2 = "/a"
    · exact hne (e1.trans e2.symm)
    · simp only [disjointEnv, if_neg e2] at h2
      simp at h2
  · simp only [disjointEnv, if_neg e1] at h1
    simp at h1

/-- C4 counterexample: with a nested package root, compiling `/a/x.ts` (root
`/a`, whose glob also reaches `/a/b/f.ts`) and then `/a/b/g.tsx` (root
`/a/b`) records `/a/b/f.ts` in two BuildGroups. -/
theorem buildSet_group_unique_counterexample :
    groupsContaining
      (runOps nestedRootsEnv []
        [CompilerOp.compileOp "/a/x.ts", CompilerOp.compileOp "/a/b/g.tsx"])
      "/a/b/f.ts" = 2 := by
  decide

end Wds

namespace Wds

/-! ### Group membership and shape lemmas (claim C8) -/

/-- The written file is a member of `setFile files f`. -/
theorem setFile_self (files : FileMap) (f : CompiledFile) : f ∈ setFile files f := by
  induction files with
  | nil => simp [setFile]
  | cons g gs ih =>
    by_cases hg : g.filename = f.filename
    · simp [setFile, hg]
    · simp only [setFile, if_neg hg]
      exact List.mem_cons_of_mem _ ih

/-- Every filename present before `setFile` is still present after it. -/
theorem setFile_filename_mem {files : FileMap} {cf : CompiledFile} (f : CompiledFile)
    (h : cf ∈ files) : ∃ cf2 ∈ setFile files f, cf2.filename = cf.filename := by
  induction files with
  | nil => simp at h
  | cons g gs ih =>
    by_cases hg : g.filename = f.filename
    · simp only [setFile, if_pos hg]
      rcases List.mem_cons.mp h with rfl | h2
      · exact ⟨f, List.mem_cons_self _ _, hg.symm⟩
      · exact ⟨cf, List.mem_cons_of_mem _ h2, rfl⟩
    · simp only [setFile, if_neg hg]
      rcases List.mem_cons.mp h with rfl | h2
      · exact ⟨cf, List.mem_cons_self _ _, rfl⟩
      · obtain ⟨cf2, h3, h4⟩ := ih h2
        exact ⟨cf2, List.mem_cons_of_mem _ h3, h4⟩

/-- After `addFile`, the added file is recorded under its own root. -/
theorem addFile_self (gs : Groups) (file : CompiledFile) :
    fileInRootGroup (CompiledFiles.addFile gs file) file.root file.filename := by
  induction gs with
  | nil =>
    exact ⟨(file.root, [file]), by simp [CompiledFiles.addFile], rfl, file, by simp, rfl⟩
  | cons hd rest ih =>
    obtain ⟨r, files⟩ := hd
    simp only [CompiledFiles.addFile]
    by_cases hr : r = file.root
    · rw [if_pos hr]
      exact ⟨(r, setFile files file), List.mem_cons_self _ _, hr, file,
        setFile_self files file, rfl⟩
    · rw [if_neg hr]
      obtain ⟨e, he, h1, cf, hcf, h2⟩ := ih
      exact ⟨e, List.mem_cons_of_mem _ he, h1, cf, hcf, h2⟩

/-- `addFile` never removes a filename from the group of any root. -/
theorem addFile_preserves {gs : Groups} {root g : String} (file : CompiledFile)
    (h : fileInRootGroup gs root g) :
    fileInRootGroup (CompiledFiles.addFile gs file) root g := by
  induction gs with
  | nil => simp [fileInRootGroup] at h
  | cons hd rest ih =>
    obtain ⟨r, files⟩ := hd
    obtain ⟨e, he, h1, cf, hcf, h2⟩ := h
    simp only [CompiledFiles.addFile]
    by_cases hr : r = file.root
    · rw [if_pos hr]
      rcases List.mem_cons.mp he with rfl | h3
      · obtain ⟨cf2, hcf2, hn⟩ := setFile_filename_mem file hcf
        exact ⟨(r, setFile files file), List.mem_cons_self _ _, h1, cf2, hcf2, hn.trans h2⟩
      · exact ⟨e, List.mem_cons_of_mem _ h3, h1, cf, hcf, h2⟩
    · rw [if_neg hr]
      rcases List.mem_cons.mp he with rfl | h3
      · exact ⟨(r, files), List.mem_cons_self _ _, h1, cf, hcf, h2⟩
      · obtain ⟨e2, he2, g1, cf2, hcf2, g2⟩ := ih ⟨e, h3, h1, cf, hcf, h2⟩
        exact ⟨e2, List.mem_cons_of_mem _ he2, g1, cf2, hcf2, g2⟩

/-- The build-group fold never removes recorded filenames. -/
theorem foldl_buildFile_preserves (env : CompilerEnv) (root : String) :
    ∀ (l : List String) (gs : Groups) {root2 g : String},
      fileInRootGroup gs root2 g →
      fileInRootGroup (l.foldl (fun a f => buildFile env a f root) gs) root2 g := by
  intro l
  induction l with
  | nil => intro gs root2 g h; simpa using h
  | cons f fs ih =>
    intro gs root2 g h
    simp only [List.foldl_cons]
    exact ih _ (addFile_preserves _ h)

/-- After the build-group fold, every folded filename is recorded under the
fold root. -/
theorem foldl_buildFile_adds (env : CompilerEnv) (root : String) :
    ∀ (l : List String) (gs : Groups), ∀ g ∈ l,
      fileInRootGroup (l.foldl (fun a f => buildFile env a f root) gs) root g := by
  intro l
  induction l with
  | nil => intro gs g hg; simp at hg
  | cons f fs ih =>
    intro gs g hg
    simp only [List.foldl_cons]
    rcases List.mem_cons.mp hg with rfl | h2
    · exact foldl_buildFile_preserves env root fs _ (addFile_self gs _)
    · exact ih _ g h2

/-- Overwriting a filename that the map already holds leaves the filename
list unchanged. -/
theorem setFile_names_eq {files : FileMap} {f : CompiledFile}
    (h : ∃ cf ∈ files, cf.filename = f.filename) :
    (setFile files f).map CompiledFile.filename = files.map CompiledFile.filename := by
  induction files with
  | nil => simp at h
  | cons g gs ih =>
    by_cases hg : g.filename = f.filename
    · simp [setFile, hg]
    · simp only [setFile, if_neg hg, List.map_cons]
      congr 1
      apply ih
      obtain ⟨cf, hcf, hn⟩ := h
      rcases List.mem_cons.mp hcf with rfl | h2
      · exact absurd hn hg
      · exact ⟨cf, h2, hn⟩

/-- Re-adding a file that its group already holds leaves the shape of the
build set unchanged (keys pairwise distinct). -/
theorem addFile_shape_eq {gs : Groups} {fname root : String} {files : FileMap} {c : String}
    (hnd : (gs.map Prod.fst).Nodup)
    (hg : CompiledFiles.group gs fname = some (root, files)) :
    groupShape (CompiledFiles.addFile gs { filename := fname, root := root, code := c }) =
      groupShape gs := by
  induction gs with
  | nil => simp [CompiledFiles.group] at hg
  | cons hd rest ih =>
    obtain ⟨r, fs⟩ := hd
    rw [CompiledFiles.group, List.find?_cons] at hg
    split at hg
    next hp =>
      simp only [Option.some.injEq, Prod.mk.injEq] at hg
      obtain ⟨h1, h2⟩ := hg
      subst h1
      subst h2
      simp only [CompiledFiles.addFile]
      split
      next =>
        simp only [groupShape, List.map_cons]
        have hnames : (setFile fs { filename := fname, root := r, code := c }).map
            CompiledFile.filename = fs.map CompiledFile.filename := by
          apply setFile_names_eq
          simp only [List.any_eq_true, decide_eq_true_eq] at hp
          exact hp
        rw [hnames]
      next hcontra => exact absurd trivial hcontra
    next hp =>
      have hmem := List.mem_of_find?_eq_some hg
      have hroot : root ∈ rest.map Prod.fst := List.mem_map_of_mem Prod.fst hmem
      have hnd1 : (r :: rest.map Prod.fst).Nodup := by simpa using hnd
      have hnd2 := List.nodup_cons.mp hnd1
      have hr : ¬ r = root := fun h => hnd2.1 (h ▸ hroot)
      simp only [CompiledFiles.addFile]
      split
      next hcontra => exact absurd hcontra hr
      next =>
        simp only [groupShape, List.map_cons]
        congr 1
        exact ih hnd2.2 hg

end Wds

namespace Wds

/-- C8 (amended): the swc backend, asked to compile a path that belongs to
no existing group, enumerates the glob of the nearest package root and
records every globbed file in the group of that root (not only the requested
file); asked to compile a path already in a group, it rebuilds only that
file in place, leaving the shape of the build set unchanged. -/
theorem swc_compile_group_build (env : CompilerEnv) (gs : Groups) (f : String)
    (hwf : GroupsWF env gs) :
    (CompiledFiles.group gs f = none →
      ∀ g ∈ env.glob (env.findRoot f),
        fileInRootGroup (SwcCompiler.compile env gs f) (env.findRoot f) g) ∧
    (∀ root files, CompiledFiles.group gs f = some (root, files) →
      groupShape (SwcCompiler.compile env gs f) = groupShape gs) := by
  constructor
  · intro hnone g hg
    unfold SwcCompiler.compile
    rw [hnone]
    unfold buildGroup
    exact foldl_buildFile_adds env _ _ gs g hg
  · intro root files hsome
    unfold SwcCompiler.compile
    rw [hsome]
    unfold buildFile
    exact addFile_shape_eq hwf.1 hsome

/-- Witness for C8 (amended): compiling an ungrouped file on a two-file root
records the other globbed file as well. -/
theorem swc_compile_group_build_witness :
    fileInRootGroup (SwcCompiler.compile twoFileEnv [] "/a/x.ts") "/a" "/a/y.ts" := by
  have h := (swc_compile_group_build twoFileEnv [] "/a/x.ts" (groupsWF_nil twoFileEnv)).1 rfl
  exact h "/a/y.ts" (by simp [twoFileEnv])

/-- C8 counterexample: the `--swc` backend does not record a single-file
group for a fresh path: compiling `/a/x.ts` alone yields a group of two
files, also containing the never-requested `/a/y.ts`. -/
theorem swc_compile_per_file_counterexample :
    (CompiledFiles.group (SwcCompiler.compile twoFileEnv [] "/a/x.ts") "/a/x.ts").map
        (fun e => e.2.length) = some 2 ∧
    fileInRootGroup (SwcCompiler.compile twoFileEnv [] "/a/x.ts") "/a" "/a/y.ts" := by
  constructor
  · decide
  · decide

end Wds

namespace Wds

/-- C5 (amended): when `compiler.compile` or `compiler.fileGroup` throws, the
/compile handler catches the error, logs its message, and replies
`\x7b filenames: undefined \x7d`; the error is not returned to the requester. -/
theorem compile_route_error_reply (c : IPCCompiler) (watcher : Option (List String))
    (filename : String) (e : CompileFailure) :
    (c.compileResult = Except.error e →
      compileRoute c watcher filename =
        (IPCReply.filenamesReply none, watcher, [CompileFailure.message e])) ∧
    (c.compileResult = Except.ok () → c.fileGroupResult = Except.error e →
      compileRoute c watcher filename =
        (IPCReply.filenamesReply none, watcher.map (fun w => w ++ [filename]),
          [CompileFailure.message e])) := by
  constructor
  · intro h
    simp [compileRoute, ipcCompile, h]
  · intro h1 h2
    simp [compileRoute, ipcCompile, h1, h2]

/-- Witness for C5 (amended) at the concrete failing compiler. -/
theorem compile_route_error_reply_witness :
    compileRoute failingCompiler (some []) "/w/x.ts" =
      (IPCReply.filenamesReply none, some [], ["error TS: x.ts (3,7)"]) :=
  (compile_route_error_reply failingCompiler (some []) "/w/x.ts"
    (CompileFailure.compileError "error TS: x.ts (3,7)")).1 rfl

/-- C5 counterexample: on a failing compile, the handler replies
`\x7b filenames: undefined \x7d`, not a JSON error body with kind and message. -/
theorem compile_route_error_counterexample :
    (compileRoute failingCompiler (some []) "/w/x.ts").1 = IPCReply.filenamesReply none ∧
    ∀ kind message,
      (compileRoute failingCompiler (some []) "/w/x.ts").1 ≠ IPCReply.errorBody kind message := by
  constructor
  · rfl
  · intro kind message h
    simp [compileRoute, ipcCompile, failingCompiler] at h

/-- C6 (amended): after /file-required with a registered watcher, every path
of the body is appended to the watcher path set, including paths under
node_modules, and the reply is `\x7b status: "ok" \x7d`. -/
theorem file_required_adds_all (w : List String) (body : List String) :
    fileRequiredRoute (some w) body = (some (w ++ body), IPCReply.statusOk) := by
  have haux : ∀ (l : List String) (ws : List String),
      l.foldl (fun acc filename => acc.map (fun prev => prev ++ [filename])) (some ws) =
        some (ws ++ l) := by
    intro l
    induction l with
    | nil => intro ws; simp
    | cons p ps ih =>
      intro ws
      rw [List.foldl_cons]
      have hmap : Option.map (fun prev => prev ++ [p]) (some ws) = some (ws ++ [p]) := rfl
      rw [hmap, ih (ws ++ [p])]
      simp
  unfold fileRequiredRoute
  rw [haux]

/-- C6 counterexample: a path under node_modules is not skipped by the
/file-required route; it lands in the watcher path set. -/
theorem file_required_node_modules_counterexample :
    (fileRequiredRoute (some []) ["/w/node_modules/dep/index.js"]).1 =
      some ["/w/node_modules/dep/index.js"] ∧
    "/w/node_modules/dep/index.js" ∈
      ((fileRequiredRoute (some []) ["/w/node_modules/dep/index.js"]).1.getD []) := by
  decide

/-- C7: `Supervisor.stop()` sends SIGTERM, but its 5000 ms timer tests
`process.killed`, which that SIGTERM send already set; the timer therefore
never sends SIGKILL, even when the child has still not exited. Evaluated at
a live child that ignores SIGTERM. -/
theorem supervisor_stop_never_escalates :
    (∀ (c : ChildProcess) (s : String),
      Supervisor.stopTimer (ChildProcess.kill c s) = ChildProcess.kill c s) ∧
    Supervisor.stopNow (some { killed := false, exited := false, signals := [] }) =
      some { killed := true, exited := false, signals := ["SIGTERM"] } ∧
    "SIGKILL" ∉ (Supervisor.stopTimer
      { killed := true, exited := false, signals := ["SIGTERM"] }).signals := by
  refine ⟨?_, rfl, by decide⟩
  intro c s
  simp [Supervisor.stopTimer, ChildProcess.kill]

end Wds

namespace Wds

/-- C9: whenever isFilenameIgnored returns a pattern G, globbing with the
include patterns plus only G omits the file, globbing with the include
patterns alone yields it, and globbing with the includes plus the full
ignore list omits it; when the file is not ignored (it survives the full
ignore list, or the includes do not match it), the function returns false. -/
theorem isFilenameIgnored_correct (globby : List String → List String)
    (config : SwcProjectConfig) (filename : String) :
    (∀ G, isFilenameIgnored globby config filename = some G →
      G ∈ ignoreFileGlobPatterns config ∧
      filename ∉ globby (fileGlobPatterns config ++ [G]) ∧
      filename ∈ globby (fileGlobPatterns config) ∧
      filename ∉ globby (fileGlobPatterns config ++ ignoreFileGlobPatterns config)) ∧
    (¬(filename ∈ globby (fileGlobPatterns config) ∧
        filename ∉ globby (fileGlobPatterns config ++ ignoreFileGlobPatterns config)) →
      isFilenameIgnored globby config filename = none) := by
  constructor
  · intro G hG
    simp only [isFilenameIgnored] at hG
    split_ifs at hG with hcond
    · have hmem := List.mem_of_find?_eq_some hG
      have hpred := List.find?_some hG
      simp only [decide_eq_true_eq] at hpred
      exact ⟨hmem, hpred, hcond.2, hcond.1⟩
  · intro hnot
    simp only [isFilenameIgnored]
    exact if_neg (fun hcond => hnot ⟨hcond.2, hcond.1⟩)

/-- Witness for C9 at a concrete globby service: the generated file is
reported ignored by the configured pattern, and the three glob comparisons
hold. -/
theorem isFilenameIgnored_correct_witness :
    isFilenameIgnored globbyW configW "/r/gen.ts" = some "!**/gen*" ∧
    "/r/gen.ts" ∉ globbyW (fileGlobPatterns configW ++ ["!**/gen*"]) ∧
    "/r/gen.ts" ∈ globbyW (fileGlobPatterns configW) ∧
    "/r/gen.ts" ∉ globbyW (fileGlobPatterns configW ++ ignoreFileGlobPatterns configW) := by
  have h := (isFilenameIgnored_correct globbyW configW "/r/gen.ts").1 "!**/gen*" (by decide)
  exact ⟨by decide, h.2.1, h.2.2.1, h.2.2.2⟩

end Wds
